import Mathlib

/-!
# m0plus-minimal: event queue, dispatch engine, Conway main loop, rainbow tick

A shallow embedding of

* `src/common/fsm.h` : the signal vocabulary, `fsm_events_t`, `fsm_status_t`,
  `fsm_t` and the declared engine interface;
* `src/gol/conway.c` : `CALC_FRAMERATE`, the interrupt handlers `_adc` and
  `_tcc0`, `UnsignedDIV`, `UpdateFramerate`, the state `Life` and `Loop`;
* `src/rainbow/rainbow.c` : `ledColours`, `ledIndex` and `_sysTick`.

Machine integers are natural numbers with an explicit reduction modulo
`2 ^ w` wherever the C operation can wrap.  The C type `signal` is `int`.
-/

/-! ## `src/common/fsm.h` -/

/-- The macro `BUFFER_SIZE`, `( 32U )`. -/
def BUFFER_SIZE : Nat := 32

/-- The typedef `signal`, a C `int`. -/
abbrev signal := Int

/-- First enumerator of `enum DefaultSignals`. -/
def signal_None : signal := 0
/-- Second enumerator of `enum DefaultSignals`. -/
def signal_Enter : signal := signal_None + 1
/-- Third enumerator of `enum DefaultSignals`. -/
def signal_Exit : signal := signal_Enter + 1
/-- Last enumerator of `enum DefaultSignals`, the first free signal value. -/
def signal_Count : signal := signal_Exit + 1

/-- The circular buffer `fsm_events_t`: three `unsigned char` fields and an
array of exactly `BUFFER_SIZE` signals. -/
structure fsm_events_t where
  read_index : Nat
  write_index : Nat
  fill : Nat
  event : Fin BUFFER_SIZE → signal

/-- The enumeration `fsm_status_t`. -/
inductive fsm_status_t where
  | fsm_Handled
  | fsm_Transition
  | fsm_Ignored
  deriving DecidableEq, Repr

/-- The slot of the array `event` a cursor designates.  Cursors are kept
modulo the capacity, so the reduction is the identity on every cursor value
the queue operations produce. -/
def slot (i : Nat) : Fin BUFFER_SIZE :=
  ⟨i % BUFFER_SIZE, Nat.mod_lt i (by decide)⟩

/-- Modelled from the spec: the body of `FSM_FlushEvents` (declared in
`fsm.h`, defined outside `src/`).  "Flush(queue) discards all pending signals
(equivalent to Initialize)", and Initialize "resets read/write cursors and
fill count to zero". -/
def FSM_FlushEvents (q : fsm_events_t) : fsm_events_t :=
  { q with read_index := 0, write_index := 0, fill := 0 }

/-- Modelled from the spec: the body of `FSM_AddEvent` (declared in `fsm.h`,
defined outside `src/`).  "If `fill == capacity`" the recommended policy is to
"drop the incoming event and leave the queue unchanged"; "otherwise writes
`signal` at the write cursor, advances the write cursor modulo capacity,
increments `fill`". -/
def FSM_AddEvent (q : fsm_events_t) (s : signal) : fsm_events_t :=
  if q.fill = BUFFER_SIZE then q
  else
    { q with
      event := Function.update q.event (slot q.write_index) s
      write_index := (q.write_index + 1) % BUFFER_SIZE
      fill := q.fill + 1 }

/-- Modelled from the spec: the body of `FSM_GetLatestEvent` (declared in
`fsm.h`, defined outside `src/`).  On an empty queue it "returns the `None`
signal and does not change `fill`"; otherwise it "reads the signal at the read
cursor, advances the read cursor modulo capacity, decrements `fill`". -/
def FSM_GetLatestEvent (q : fsm_events_t) : signal × fsm_events_t :=
  if q.fill = 0 then (signal_None, q)
  else
    (q.event (slot q.read_index),
     { q with
       read_index := (q.read_index + 1) % BUFFER_SIZE
       fill := q.fill - 1 })

/-- Modelled from the spec: the body of `FSM_EventsAvailable` (declared in
`fsm.h`, defined outside `src/`): "returns whether `fill > 0`". -/
def FSM_EventsAvailable (q : fsm_events_t) : Bool :=
  decide (0 < q.fill)

/-- Calling `FSM_AddEvent` once for each signal of a list, first to last. -/
def addEvents (q : fsm_events_t) : List signal → fsm_events_t
  | [] => q
  | s :: rest => addEvents (FSM_AddEvent q s) rest

/-- The pending signals of a queue, oldest first: the `fill` slots that start
at the read cursor. -/
def pending (q : fsm_events_t) : List signal :=
  (List.range q.fill).map (fun i => q.event (slot (q.read_index + i)))

/-- Well-formed queue states: the fill count is within the capacity and the
write cursor is `fill` slots ahead of the read cursor. -/
def QueueOk (q : fsm_events_t) : Prop :=
  q.fill ≤ BUFFER_SIZE ∧
    q.write_index % BUFFER_SIZE = (q.read_index + q.fill) % BUFFER_SIZE

/-- The function-pointer type `state_func`.  A pointer is represented by the
name of the function it points to; `Life` is the only function of this type
in the program. -/
inductive state_func where
  | Life
  deriving DecidableEq, Repr

/-- The struct `fsm_t`: the active state handler. -/
structure fsm_t where
  state : state_func
  deriving DecidableEq, Repr

/-- One invocation of a state handler: which handler ran, the signal it was
given and the status it returned. -/
structure delivery where
  handler : state_func
  sig : signal
  status : fsm_status_t
  deriving DecidableEq, Repr

/-- Modelled from the spec: the body of `FSM_Dispatch` (declared in `fsm.h`,
defined outside `src/`).  It "delivers `signal` to the active handler"; on
`Handled` or `Ignored` there is "no change to the active handler"; on
`Transition` the handler has already assigned the new target and the engine
sends `Exit` to the previous handler and then `Enter` to the new one, the
outcomes of these two deliveries starting no further transition.  `call`
invokes the function a `state_func` names; the result lists the deliveries
made, in order. -/
def FSM_Dispatch {W : Type}
    (call : state_func → fsm_t → signal → W → fsm_status_t × fsm_t × W)
    (m : fsm_t) (s : signal) (w : W) : fsm_t × W × List delivery :=
  let previous := m.state
  let r := call previous m s w
  match r.1 with
  | fsm_status_t.fsm_Transition =>
    let next := r.2.1.state
    let x := call previous r.2.1 signal_Exit r.2.2
    let e := call next { state := next } signal_Enter x.2.2
    ({ state := next }, e.2.2,
      [⟨previous, s, r.1⟩, ⟨previous, signal_Exit, x.1⟩, ⟨next, signal_Enter, e.1⟩])
  | _ => (r.2.1, r.2.2, [⟨previous, s, r.1⟩])

/-- Modelled from the spec: the body of `FSM_Init` (declared in `fsm.h`,
defined outside `src/`).  The queue is initialised ("resets read/write cursors
and fill count to zero") and the engine "immediately delivers the `Enter`
signal" to the installed handler. -/
def FSM_Init {W : Type}
    (call : state_func → fsm_t → signal → W → fsm_status_t × fsm_t × W)
    (m : fsm_t) (q : fsm_events_t) (w : W) :
    fsm_t × fsm_events_t × W × List delivery :=
  let r := call m.state m signal_Enter w
  (r.2.1, FSM_FlushEvents q, r.2.2, [⟨m.state, signal_Enter, r.1⟩])

/-! ## `src/gol/conway.c` -/

namespace Conway

/-- The macro `LED_PIN`, `( 10U )`. -/
def LED_PIN : Nat := 10

/-- The macro `MAX_FRAMERATE`, `( 8U )`. -/
def MAX_FRAMERATE : Nat := 8

/-- The macro `ADC_WINDOW_INC`, `( 32U )`. -/
def ADC_WINDOW_INC : Nat := 32

/-- The product inside `CALC_FRAMERATE`: both operands are cast to `uint16_t`
and multiplied after integer promotion, so the product itself is not reduced
modulo `2 ^ 16`. -/
def CALC_FRAMERATE_product (X Y : Nat) : Nat :=
  (X % 2 ^ 16) * (Y % 2 ^ 16)

/-- The macro `CALC_FRAMERATE( X, Y )`:
`(uint8_t)( ( ( (uint16_t)(X) * (uint16_t)(Y) ) >> 8U ) + 1U )`. -/
def CALC_FRAMERATE (X Y : Nat) : Nat :=
  ((CALC_FRAMERATE_product X Y >>> 8) + 1) % 2 ^ 8

/-- First enumerator of `enum Signals`, `signal_Timer = signal_Count`. -/
def signal_Timer : signal := signal_Count
/-- Second enumerator of `enum Signals`. -/
def signal_ADCWindow : signal := signal_Timer + 1

/-- Calls into the peripheral drivers and the simulation, which live outside
`src/`; the program's effect on them is the sequence of calls it makes. -/
inductive ext_call where
  | Life_Tick
  | Timer_UpdatePeriod (framerate : Nat)
  | ADC_UpdateWindow (upper lower : Nat)
  | ADC_ClearInterrupt
  | Timer_ClearInterrupt
  deriving DecidableEq, Repr

/-- The hardware-visible state the program acts on: the registers `GPIO->OUT`
and `NVIC_ICPR0` (32 bits each), the value `ADC_Read()` returns, and the
driver calls made so far. -/
structure World where
  GPIO_OUT : Nat
  NVIC_ICPR0 : Nat
  adc : Nat
  calls : List ext_call
  deriving DecidableEq, Repr

/-- The loop of `UnsignedDIV`: `while( num >= denom ) { num -= denom; result++; }`
on `uint32_t` variables.  It is entered only under the guard `num && denom`,
which is what `hd` records. -/
def UnsignedDIV_loop (denom : Nat) (hd : 0 < denom) (num result : Nat) : Nat :=
  if num ≥ denom then
    UnsignedDIV_loop denom hd (num - denom) ((result + 1) % 2 ^ 32)
  else result
termination_by num
decreasing_by omega

/-- The function `UnsignedDIV( uint32_t num, uint32_t denom )`. -/
def UnsignedDIV (num denom : Nat) : Nat :=
  if h : num ≠ 0 ∧ denom ≠ 0 then
    UnsignedDIV_loop denom (Nat.pos_of_ne_zero h.2) num 0
  else 1

/-- The three values `UpdateFramerate` computes from the reading `raw_adc`:
`new_framerate` and the final `uint32_t` values of `upper_lim` and
`lower_lim`. -/
def UpdateFramerate_limits (raw_adc : Nat) : Nat × Nat × Nat :=
  let new_framerate := CALC_FRAMERATE MAX_FRAMERATE raw_adc
  let upper_lim := (new_framerate * ADC_WINDOW_INC) % 2 ^ 32
  let lower_lim := (upper_lim + (2 ^ 32 - ADC_WINDOW_INC)) % 2 ^ 32
  let upper_lim := (upper_lim + (2 ^ 32 - 1)) % 2 ^ 32
  (new_framerate, upper_lim, lower_lim)

/-- The function `UpdateFramerate`: reads the ADC into a `uint8_t`, then calls
`Timer_UpdatePeriod( new_framerate )` and
`ADC_UpdateWindow( (uint8_t)upper_lim, (uint8_t)lower_lim )`. -/
def UpdateFramerate (w : World) : World :=
  let raw_adc := w.adc % 2 ^ 8
  let v := UpdateFramerate_limits raw_adc
  { w with
    calls := w.calls ++
      [ext_call.Timer_UpdatePeriod v.1,
       ext_call.ADC_UpdateWindow (v.2.1 % 2 ^ 8) (v.2.2 % 2 ^ 8)] }

/-- The state function `Life`, the only state of the program. -/
def Life (this : fsm_t) (s : signal) (w : World) : fsm_status_t × fsm_t × World :=
  if s = signal_Timer then
    (fsm_status_t.fsm_Handled, this, { w with calls := w.calls ++ [ext_call.Life_Tick] })
  else if s = signal_ADCWindow then
    (fsm_status_t.fsm_Handled, this, UpdateFramerate w)
  else if s = signal_Enter then
    (fsm_status_t.fsm_Handled, this,
      { w with GPIO_OUT := w.GPIO_OUT &&& ((2 ^ 32 - 1) ^^^ (1 <<< LED_PIN)) })
  else
    (fsm_status_t.fsm_Ignored, this,
      { w with GPIO_OUT := (w.GPIO_OUT ||| (1 <<< LED_PIN)) % 2 ^ 32 })

/-- Calling through a `state_func` pointer. -/
def call : state_func → fsm_t → signal → World → fsm_status_t × fsm_t × World
  | state_func.Life => Life

/-- The program points of `Loop`: before `FSM_Init`, inside the polling loop
`while( !FSM_EventsAvailable( &event ) );`, before
`sig = FSM_GetLatestEvent( &event );` and before `FSM_Dispatch( &life, sig );`. -/
inductive Loop_pc where
  | init
  | poll
  | get
  | dispatch
  deriving DecidableEq, Repr

/-- The state of the running program: the static queue `event`, the locals
`life` and `sig` of `Loop`, the program point of `Loop`, and the hardware. -/
structure Sys where
  event : fsm_events_t
  life : fsm_t
  sig : signal
  pc : Loop_pc
  hw : World

/-- The interrupt handler `_adc`. -/
def _adc (s : Sys) : Sys :=
  { s with
    event := FSM_AddEvent (FSM_FlushEvents s.event) signal_ADCWindow
    hw := { s.hw with
      calls := s.hw.calls ++ [ext_call.ADC_ClearInterrupt]
      NVIC_ICPR0 := (s.hw.NVIC_ICPR0 ||| (1 <<< 23)) % 2 ^ 32 } }

/-- The interrupt handler `_tcc0`. -/
def _tcc0 (s : Sys) : Sys :=
  { s with
    event := FSM_AddEvent s.event signal_Timer
    hw := { s.hw with
      NVIC_ICPR0 := (s.hw.NVIC_ICPR0 ||| (1 <<< 15)) % 2 ^ 32
      calls := s.hw.calls ++ [ext_call.Timer_ClearInterrupt] } }

/-- One step of `Loop` from its current program point, with the handler
deliveries the step makes. -/
def Loop (s : Sys) : Sys × List delivery :=
  match s.pc with
  | Loop_pc.init =>
    let r := FSM_Init call s.life s.event s.hw
    ({ s with life := r.1, event := r.2.1, hw := r.2.2.1, pc := Loop_pc.poll }, r.2.2.2)
  | Loop_pc.poll =>
    if FSM_EventsAvailable s.event then ({ s with pc := Loop_pc.get }, [])
    else (s, [])
  | Loop_pc.get =>
    let r := FSM_GetLatestEvent s.event
    ({ s with sig := r.1, event := r.2, pc := Loop_pc.dispatch }, [])
  | Loop_pc.dispatch =>
    let r := FSM_Dispatch call s.life s.sig s.hw
    ({ s with life := r.1, hw := r.2.1, pc := Loop_pc.poll }, r.2.2)

/-- What can happen next: one of the two interrupts fires, the main loop
advances by one step, or the ADC produces a new reading. -/
inductive Action where
  | adc
  | tcc0
  | main
  | sample (reading : Nat)
  deriving DecidableEq, Repr

/-- One action of the program. -/
def step (s : Sys) : Action → Sys × List delivery
  | Action.adc => (_adc s, [])
  | Action.tcc0 => (_tcc0 s, [])
  | Action.main => Loop s
  | Action.sample r => ({ s with hw := { s.hw with adc := r } }, [])

/-- A sequence of actions, with all handler deliveries made, in order. -/
def run (s : Sys) : List Action → Sys × List delivery
  | [] => (s, [])
  | a :: rest =>
    let r := step s a
    let t := run r.1 rest
    (t.1, r.2 ++ t.2)

/-- The zero-initialised static `event`. -/
def event_static : fsm_events_t :=
  { read_index := 0, write_index := 0, fill := 0, event := fun _ => 0 }

/-- The program on entry to `Loop`, after `life.state = Life` and
`sig = signal_None`. -/
def Loop_entry (w : World) : Sys :=
  { event := event_static, life := { state := state_func.Life }, sig := signal_None,
    pc := Loop_pc.init, hw := w }

/-- The invariant of the running program: the queue is well formed, every
pending signal is `signal_Timer` or `signal_ADCWindow`, the queue is non-empty
whenever `Loop` is about to call `FSM_GetLatestEvent`, and `sig` is
`signal_Timer` or `signal_ADCWindow` whenever `Loop` is about to call
`FSM_Dispatch`. -/
def Loop_inv (s : Sys) : Prop :=
  QueueOk s.event ∧
    (∀ x ∈ pending s.event, x = signal_Timer ∨ x = signal_ADCWindow) ∧
    (s.pc = Loop_pc.get → 0 < s.event.fill) ∧
    (s.pc = Loop_pc.dispatch → s.sig = signal_Timer ∨ s.sig = signal_ADCWindow)

end Conway

/-! ## `src/rainbow/rainbow.c` -/

namespace Rainbow

/-- The enumeration `colour_t`. -/
inductive colour_t where
  | colour_red
  | colour_orange
  | colour_yellow
  | colour_green
  | colour_blue
  | colour_violet
  | colour_None
  deriving DecidableEq, Repr

/-- The struct `colour_code_t`. -/
structure colour_code_t where
  colour : colour_t
  code : Nat
  deriving DecidableEq, Repr

/-- The struct `led_t`. -/
structure led_t where
  start : Nat
  colour : Nat
  stop : Nat
  deriving DecidableEq, Repr

/-- The table `ledColours [7]`. -/
def ledColours : List colour_code_t :=
  [ ⟨colour_t.colour_red, 0xFF000087⟩,
    ⟨colour_t.colour_orange, 0x3F02c087⟩,
    ⟨colour_t.colour_yellow, 0x3FBFc087⟩,
    ⟨colour_t.colour_green, 0x00FF0087⟩,
    ⟨colour_t.colour_blue, 0x0000FF87⟩,
    ⟨colour_t.colour_violet, 0x0F000F87⟩,
    ⟨colour_t.colour_None, 0x00000087⟩ ]

/-- The statics `led` and `ledIndex`, and the number of `Timer_Start()` calls
made (the timer driver lives outside `src/`). -/
structure State where
  led : led_t
  ledIndex : Nat
  timer_starts : Nat
  deriving DecidableEq, Repr

/-- The interrupt handler `_sysTick`; `timer_active` is what `Timer_Active()`
returns.  The result is `none` when `ledColours[ledIndex]` would be read
outside the table. -/
def _sysTick (timer_active : Bool) (s : State) : Option State :=
  if !timer_active then
    match ledColours[s.ledIndex]? with
    | none => none
    | some entry =>
      let next := (s.ledIndex + 1) % 2 ^ 32
      some
        { led := { s.led with colour := entry.code }
          ledIndex := if next = 6 then 0 else next
          timer_starts := s.timer_starts + 1 }
  else some s

/-- The statics when `main` has filled in `led` (`ledIndex` is
zero-initialised). -/
def main_state : State :=
  { led :=
      { start := 0x00000000
        colour := (ledColours.get ⟨0, by decide⟩).code
        stop := 0xFFFFFFFF }
    ledIndex := 0
    timer_starts := 0 }

/-- A sequence of SysTick interrupts; each entry is what `Timer_Active()`
returns on that tick. -/
def ticks (s : State) : List Bool → Option State
  | [] => some s
  | t :: rest =>
    match _sysTick t s with
    | none => none
    | some s1 => ticks s1 rest

end Rainbow

/-! ## Queue lemmas -/

theorem slot_eq_iff (i j : Nat) : slot i = slot j ↔ i % 32 = j % 32 := by
  simp [slot, BUFFER_SIZE, Fin.ext_iff]

theorem QueueOk_flush (q : fsm_events_t) : QueueOk (FSM_FlushEvents q) := by
  simp [QueueOk, FSM_FlushEvents]

theorem pending_flush (q : fsm_events_t) : pending (FSM_FlushEvents q) = [] := by
  simp [pending, FSM_FlushEvents]

theorem QueueOk_add (q : fsm_events_t) (s : signal) (h : QueueOk q) :
    QueueOk (FSM_AddEvent q s) := by
  unfold FSM_AddEvent
  split
  · exact h
  · obtain ⟨h1, h2⟩ := h
    refine ⟨?_, ?_⟩
    · show q.fill + 1 ≤ BUFFER_SIZE
      omega
    · show (q.write_index + 1) % BUFFER_SIZE % BUFFER_SIZE
        = (q.read_index + (q.fill + 1)) % BUFFER_SIZE
      simp only [BUFFER_SIZE] at *
      omega

theorem pending_add (q : fsm_events_t) (s : signal) (h : QueueOk q)
    (hlt : q.fill < BUFFER_SIZE) :
    pending (FSM_AddEvent q s) = pending q ++ [s] := by
  obtain ⟨_, h2⟩ := h
  have hne : q.fill ≠ BUFFER_SIZE := by omega
  simp only [FSM_AddEvent, hne, if_false, pending, List.range_succ, List.map_append,
    List.map_cons, List.map_nil]
  congr 1
  · apply List.map_congr_left
    intro i hi
    rw [List.mem_range] at hi
    rw [Function.update_noteq]
    rw [Ne, slot_eq_iff]
    simp only [BUFFER_SIZE] at *
    omega
  · have : slot (q.read_index + q.fill) = slot q.write_index := by
      rw [slot_eq_iff]
      simp only [BUFFER_SIZE] at h2
      omega
    rw [this, Function.update_same]

theorem pending_add_full (q : fsm_events_t) (s : signal)
    (hfull : q.fill = BUFFER_SIZE) : FSM_AddEvent q s = q := by
  simp [FSM_AddEvent, hfull]

theorem length_pending (q : fsm_events_t) : (pending q).length = q.fill := by
  simp [pending]

theorem QueueOk_get (q : fsm_events_t) (h : QueueOk q) :
    QueueOk (FSM_GetLatestEvent q).2 := by
  unfold FSM_GetLatestEvent
  split
  · exact h
  · obtain ⟨h1, h2⟩ := h
    refine ⟨?_, ?_⟩
    · show q.fill - 1 ≤ BUFFER_SIZE
      omega
    · show q.write_index % BUFFER_SIZE
        = ((q.read_index + 1) % BUFFER_SIZE + (q.fill - 1)) % BUFFER_SIZE
      simp only [BUFFER_SIZE] at *
      omega

theorem get_of_pos (q : fsm_events_t) (hpos : 0 < q.fill) :
    FSM_GetLatestEvent q =
      (q.event (slot q.read_index),
       { q with
         read_index := (q.read_index + 1) % BUFFER_SIZE
         fill := q.fill - 1 }) := by
  have hne : q.fill ≠ 0 := by omega
  simp [FSM_GetLatestEvent, hne]

theorem pending_get (q : fsm_events_t) (hpos : 0 < q.fill) :
    pending q = (FSM_GetLatestEvent q).1 :: pending (FSM_GetLatestEvent q).2 := by
  rw [get_of_pos q hpos]
  obtain ⟨n, hn⟩ : ∃ n, q.fill = n + 1 := ⟨q.fill - 1, by omega⟩
  simp only [pending, hn, List.range_succ_eq_map, List.map_cons, List.map_map,
    Nat.add_sub_cancel, Nat.add_zero]
  congr 1
  apply List.map_congr_left
  intro i _
  simp only [Function.comp]
  congr 1
  rw [slot_eq_iff]
  simp only [BUFFER_SIZE]
  omega

/-- C2. Signal numbering: `signal_None = 0`, `signal_Enter = 1`,
`signal_Exit = 2`, `signal_Count = 3`; the Conway signals start at
`signal_Count` (`signal_Timer = 3`, `signal_ADCWindow = 4`), so neither equals
a reserved value and the two differ. -/
theorem C2_signal_numbering :
    signal_None = 0 ∧ signal_Enter = 1 ∧ signal_Exit = 2 ∧ signal_Count = 3 ∧
      Conway.signal_Timer = signal_Count ∧
      Conway.signal_Timer = 3 ∧ Conway.signal_ADCWindow = 4 ∧
      (∀ a ∈ [Conway.signal_Timer, Conway.signal_ADCWindow],
        ∀ r ∈ [signal_None, signal_Enter, signal_Exit], a ≠ r) ∧
      Conway.signal_Timer ≠ Conway.signal_ADCWindow := by
  decide

/-- C7. ADC interrupt coalescing: from every program state, whatever the queue
holds, after `_adc` the queue has `fill = 1`, `FSM_EventsAvailable` is true,
its only pending signal is `signal_ADCWindow`, the next `FSM_GetLatestEvent`
returns `signal_ADCWindow`, and after that dequeue the queue is empty: every
signal pending before the interrupt is gone. -/
theorem C7_adc_coalescing (s : Conway.Sys) :
    (Conway._adc s).event
        = FSM_AddEvent (FSM_FlushEvents s.event) Conway.signal_ADCWindow ∧
      (Conway._adc s).event.fill = 1 ∧
      FSM_EventsAvailable (Conway._adc s).event = true ∧
      pending (Conway._adc s).event = [Conway.signal_ADCWindow] ∧
      (FSM_GetLatestEvent (Conway._adc s).event).1 = Conway.signal_ADCWindow ∧
      FSM_EventsAvailable (FSM_GetLatestEvent (Conway._adc s).event).2 = false := by
  have hp : pending (Conway._adc s).event = [Conway.signal_ADCWindow] := by
    show pending (FSM_AddEvent (FSM_FlushEvents s.event) Conway.signal_ADCWindow) = _
    rw [pending_add _ _ (QueueOk_flush _) (by simp [FSM_FlushEvents, BUFFER_SIZE]),
      pending_flush]
    rfl
  have hf : (Conway._adc s).event.fill = 1 := by
    rw [← length_pending, hp]
    rfl
  have hg := pending_get (Conway._adc s).event (by omega)
  rw [hp] at hg
  have hg1 := (List.cons.inj hg).1
  have hg2 := congrArg List.length (List.cons.inj hg).2
  rw [length_pending] at hg2
  refine ⟨rfl, hf, ?_, hp, hg1.symm, ?_⟩
  · simp [FSM_EventsAvailable, hf]
  · simp only [List.length_nil] at hg2
    simp [FSM_EventsAvailable, ← hg2]

/-! ### Arithmetic of `conway.c` -/

theorem CALC_FRAMERATE_eq (r : Nat) (hr : r < 256) :
    Conway.CALC_FRAMERATE_product Conway.MAX_FRAMERATE r = 8 * r ∧
      Conway.CALC_FRAMERATE Conway.MAX_FRAMERATE r = r / 32 + 1 := by
  have hp : Conway.CALC_FRAMERATE_product Conway.MAX_FRAMERATE r = 8 * r := by
    simp only [Conway.CALC_FRAMERATE_product, Conway.MAX_FRAMERATE]
    omega
  refine ⟨hp, ?_⟩
  simp only [Conway.CALC_FRAMERATE, hp, Nat.shiftRight_eq_div_pow]
  omega

theorem UpdateFramerate_limits_eq (r : Nat) (hr : r < 256) :
    Conway.UpdateFramerate_limits r
      = (r / 32 + 1, 32 * (r / 32 + 1) - 1, 32 * (r / 32 + 1) - 32) := by
  simp only [Conway.UpdateFramerate_limits, (CALC_FRAMERATE_eq r hr).2,
    Conway.ADC_WINDOW_INC, Prod.mk.injEq, true_and]
  omega

/-- C8. Framerate and ADC window arithmetic: for every 8-bit reading `r`, the
product in `CALC_FRAMERATE` is `8 * r` and stays below `2 ^ 16`, the framerate
`f` is `r / 32 + 1` and lies in `1..8`, `UpdateFramerate` computes
`upper_lim = 32 * f - 1` and `lower_lim = 32 * f - 32`, both below `256` (so
the `uint8_t` casts keep them), `lower_lim ≤ r ≤ upper_lim`, and on a world
whose ADC reads `r` the function calls `Timer_UpdatePeriod( f )` and then
`ADC_UpdateWindow( 32 * f - 1, 32 * f - 32 )` and does nothing else. -/
theorem C8_framerate_window (r : Nat) (hr : r < 256) :
    Conway.CALC_FRAMERATE Conway.MAX_FRAMERATE r = r / 32 + 1 ∧
      1 ≤ Conway.CALC_FRAMERATE Conway.MAX_FRAMERATE r ∧
      Conway.CALC_FRAMERATE Conway.MAX_FRAMERATE r ≤ 8 ∧
      Conway.CALC_FRAMERATE_product Conway.MAX_FRAMERATE r = 8 * r ∧
      Conway.CALC_FRAMERATE_product Conway.MAX_FRAMERATE r < 2 ^ 16 ∧
      (Conway.UpdateFramerate_limits r).2.1
        = 32 * Conway.CALC_FRAMERATE Conway.MAX_FRAMERATE r - 1 ∧
      (Conway.UpdateFramerate_limits r).2.2
        = 32 * Conway.CALC_FRAMERATE Conway.MAX_FRAMERATE r - 32 ∧
      (Conway.UpdateFramerate_limits r).2.1 % 2 ^ 8
        = (Conway.UpdateFramerate_limits r).2.1 ∧
      (Conway.UpdateFramerate_limits r).2.2 % 2 ^ 8
        = (Conway.UpdateFramerate_limits r).2.2 ∧
      (Conway.UpdateFramerate_limits r).2.2 ≤ r ∧
      r ≤ (Conway.UpdateFramerate_limits r).2.1 ∧
      ∀ w : Conway.World, w.adc = r →
        Conway.UpdateFramerate w =
          { w with
            calls := w.calls ++
              [Conway.ext_call.Timer_UpdatePeriod (r / 32 + 1),
               Conway.ext_call.ADC_UpdateWindow
                 (32 * (r / 32 + 1) - 1) (32 * (r / 32 + 1) - 32)] } := by
  have hf := CALC_FRAMERATE_eq r hr
  have hl := UpdateFramerate_limits_eq r hr
  rw [hl, hf.1, hf.2]
  refine ⟨rfl, by omega, by omega, rfl, by omega, rfl, rfl, ?_, ?_, ?_, ?_, ?_⟩
  · show (32 * (r / 32 + 1) - 1) % 2 ^ 8 = 32 * (r / 32 + 1) - 1
    omega
  · show (32 * (r / 32 + 1) - 32) % 2 ^ 8 = 32 * (r / 32 + 1) - 32
    omega
  · show 32 * (r / 32 + 1) - 32 ≤ r
    omega
  · show r ≤ 32 * (r / 32 + 1) - 1
    omega
  · intro w hw
    have hmod : w.adc % 2 ^ 8 = r := by rw [hw]; omega
    have hu : (32 * (r / 32 + 1) - 1) % 2 ^ 8 = 32 * (r / 32 + 1) - 1 := by omega
    have hlo : (32 * (r / 32 + 1) - 32) % 2 ^ 8 = 32 * (r / 32 + 1) - 32 := by omega
    simp only [Conway.UpdateFramerate, hmod, hl, hu, hlo]

/-- Witness of C8: the reading `200` gives framerate `7` and the window
`192..223`. -/
theorem C8_framerate_window_witness :
    (200 : Nat) < 256 ∧
      Conway.CALC_FRAMERATE Conway.MAX_FRAMERATE 200 = 7 ∧
      (Conway.UpdateFramerate_limits 200).2.1 = 223 ∧
      (Conway.UpdateFramerate_limits 200).2.2 = 192 :=
  ⟨by decide, (C8_framerate_window 200 (by decide)).1,
    by decide, by decide⟩

theorem UnsignedDIV_loop_eq (denom : Nat) (hd : 0 < denom) :
    ∀ num result : Nat, result + num / denom < 2 ^ 32 →
      Conway.UnsignedDIV_loop denom hd num result = result + num / denom := by
  intro num
  induction num using Nat.strong_induction_on with
  | _ num ih =>
    intro result hres
    rw [Conway.UnsignedDIV_loop]
    split
    · rename_i hge
      have hdiv : num / denom = (num - denom) / denom + 1 := by
        rw [Nat.div_eq_sub_div hd hge]
      rw [hdiv] at hres ⊢
      obtain ⟨k, hk⟩ : ∃ k, (num - denom) / denom = k := ⟨_, rfl⟩
      rw [hk] at hres ⊢
      have hmod : (result + 1) % 2 ^ 32 = result + 1 := by
        apply Nat.mod_eq_of_lt
        omega
      rw [hmod, ih (num - denom) (by omega) (result + 1) (by rw [hk]; omega), hk]
      omega
    · rename_i hlt
      rw [Nat.div_eq_of_lt (by omega)]
      rfl

/-- C9. `UnsignedDIV` is integer division by repeated subtraction: it is a
total function, and for all 32-bit `num` and `denom` it returns
`num / denom` (rounded down, so `0` when `num < denom`) when both are at least
`1`, and `1` when `num = 0` or `denom = 0`. -/
theorem C9_UnsignedDIV (num denom : Nat) (hn : num < 2 ^ 32) (hd : denom < 2 ^ 32) :
    (1 ≤ num → 1 ≤ denom → Conway.UnsignedDIV num denom = num / denom) ∧
      (1 ≤ num → 1 ≤ denom → num < denom → Conway.UnsignedDIV num denom = 0) ∧
      (num = 0 ∨ denom = 0 → Conway.UnsignedDIV num denom = 1) := by
  have hmain : 1 ≤ num → 1 ≤ denom → Conway.UnsignedDIV num denom = num / denom := by
    intro h1 h2
    have hc : num ≠ 0 ∧ denom ≠ 0 := ⟨by omega, by omega⟩
    have hle : num / denom ≤ num := Nat.div_le_self num denom
    simp only [Conway.UnsignedDIV, hc, and_self, dite_true, ne_eq, not_false_eq_true]
    rw [UnsignedDIV_loop_eq denom (by omega) num 0 (by omega)]
    omega
  refine ⟨hmain, ?_, ?_⟩
  · intro h1 h2 hlt
    rw [hmain h1 h2, Nat.div_eq_of_lt hlt]
  · intro h0
    have hc : ¬ (num ≠ 0 ∧ denom ≠ 0) := by omega
    simp only [Conway.UnsignedDIV, hc, dite_false]

/-- Witness of C9: `UnsignedDIV( 17, 5 )` is `3`. -/
theorem C9_UnsignedDIV_witness :
    (17 : Nat) < 2 ^ 32 ∧ (5 : Nat) < 2 ^ 32 ∧ 1 ≤ (17 : Nat) ∧ 1 ≤ (5 : Nat) ∧
      Conway.UnsignedDIV 17 5 = 17 / 5 :=
  ⟨by decide, by decide, by decide, by decide,
    (C9_UnsignedDIV 17 5 (by decide) (by decide)).1 (by decide) (by decide)⟩

/-! ### The state `Life` -/

theorem Life_status (this : fsm_t) (s : signal) (w : Conway.World) :
    (Conway.Life this s w).2.1 = this ∧
      ((s = Conway.signal_Timer ∨ s = Conway.signal_ADCWindow ∨ s = signal_Enter) →
        (Conway.Life this s w).1 = fsm_status_t.fsm_Handled) ∧
      (¬ (s = Conway.signal_Timer ∨ s = Conway.signal_ADCWindow ∨ s = signal_Enter) →
        (Conway.Life this s w).1 = fsm_status_t.fsm_Ignored) := by
  unfold Conway.Life
  split_ifs with h1 h2 h3 <;> simp_all

theorem or_two_pow_of_testBit (x : Nat) (h : x.testBit 10 = true) : x ||| 1 <<< 10 = x := by
  apply Nat.eq_of_testBit_eq
  intro i
  rw [Nat.testBit_or]
  by_cases hi : i = 10
  · subst hi
    simp [h]
  · have h2 : Nat.testBit (1 <<< 10) i = false := by
      rw [Nat.one_shiftLeft, Nat.testBit_two_pow]
      simp
      omega
    rw [h2, Bool.or_false]

/-- C6, as the code has it.  For every signal `s` for which `Life` returns
`fsm_Ignored`, the invocation leaves the active handler unchanged, makes no
driver call and changes nothing of the hardware-visible state except the GPIO
output register, which becomes `OUT | ( 1 << LED_PIN )`; when the register is
a 32-bit value whose bit `LED_PIN` is already set, the state after the call is
the state before it. -/
theorem C6_ignored_sets_led (this : fsm_t) (s : signal) (w : Conway.World)
    (h : (Conway.Life this s w).1 = fsm_status_t.fsm_Ignored) :
    (Conway.Life this s w).2.1 = this ∧
      (Conway.Life this s w).2.2
        = { w with GPIO_OUT := (w.GPIO_OUT ||| (1 <<< Conway.LED_PIN)) % 2 ^ 32 } ∧
      (w.GPIO_OUT < 2 ^ 32 → w.GPIO_OUT.testBit Conway.LED_PIN = true →
        (Conway.Life this s w).2.2 = w) := by
  have hw : (Conway.Life this s w).2.2
      = { w with GPIO_OUT := (w.GPIO_OUT ||| (1 <<< Conway.LED_PIN)) % 2 ^ 32 } := by
    unfold Conway.Life at h ⊢
    split_ifs at h ⊢ with h1 h2 h3
    rfl
  refine ⟨(Life_status this s w).1, hw, ?_⟩
  intro hlt hbit
  rw [hw]
  have h1 : w.GPIO_OUT ||| (1 <<< Conway.LED_PIN) = w.GPIO_OUT :=
    or_two_pow_of_testBit w.GPIO_OUT hbit
  rw [h1, Nat.mod_eq_of_lt hlt]

/-- Witness of C6 as amended: `signal_Exit` with the LED bit clear. -/
theorem C6_ignored_sets_led_witness :
    (Conway.Life { state := state_func.Life } signal_Exit
        { GPIO_OUT := 0, NVIC_ICPR0 := 0, adc := 0, calls := [] }).1
        = fsm_status_t.fsm_Ignored ∧
      (Conway.Life { state := state_func.Life } signal_Exit
        { GPIO_OUT := 0, NVIC_ICPR0 := 0, adc := 0, calls := [] }).2.2
        = { GPIO_OUT := 1024, NVIC_ICPR0 := 0, adc := 0, calls := [] } :=
  ⟨by decide,
    (C6_ignored_sets_led { state := state_func.Life } signal_Exit
      { GPIO_OUT := 0, NVIC_ICPR0 := 0, adc := 0, calls := [] } (by decide)).2.1⟩

/-- C6 as stated fails: `Life` returns `fsm_Ignored` for `signal_Exit`, yet
with the GPIO output register at `0` before the call the register holds
`1024` (bit `LED_PIN` set) after it, so the hardware-visible state differs. -/
theorem C6_ignored_no_effect_counterexample :
    (Conway.Life { state := state_func.Life } signal_Exit
        { GPIO_OUT := 0, NVIC_ICPR0 := 0, adc := 0, calls := [] }).1
        = fsm_status_t.fsm_Ignored ∧
      (Conway.Life { state := state_func.Life } signal_Exit
        { GPIO_OUT := 0, NVIC_ICPR0 := 0, adc := 0, calls := [] }).2.2.GPIO_OUT = 1024 ∧
      (Conway.Life { state := state_func.Life } signal_Exit
        { GPIO_OUT := 0, NVIC_ICPR0 := 0, adc := 0, calls := [] }).2.2
        ≠ { GPIO_OUT := 0, NVIC_ICPR0 := 0, adc := 0, calls := [] } := by
  decide

/-! ### The running program -/

theorem Loop_inv_entry (w : Conway.World) : Conway.Loop_inv (Conway.Loop_entry w) := by
  refine ⟨?_, ?_, ?_, ?_⟩
  · simp [Conway.Loop_entry, Conway.event_static, QueueOk]
  · simp [Conway.Loop_entry, Conway.event_static, pending]
  · simp [Conway.Loop_entry]
  · simp [Conway.Loop_entry]

theorem Loop_inv_adc (s : Conway.Sys) (_h : Conway.Loop_inv s) :
    Conway.Loop_inv (Conway._adc s) := by
  have hp : pending (Conway._adc s).event = [Conway.signal_ADCWindow] := by
    show pending (FSM_AddEvent (FSM_FlushEvents s.event) Conway.signal_ADCWindow) = _
    rw [pending_add _ _ (QueueOk_flush _) (by simp [FSM_FlushEvents, BUFFER_SIZE]),
      pending_flush]
    rfl
  have hf : (Conway._adc s).event.fill = 1 := by
    rw [← length_pending, hp]
    rfl
  refine ⟨QueueOk_add _ _ (QueueOk_flush _), ?_, ?_, _h.2.2.2⟩
  · intro x hx
    rw [hp] at hx
    simp only [List.mem_singleton] at hx
    exact Or.inr hx
  · intro _
    omega

theorem Loop_inv_tcc0 (s : Conway.Sys) (h : Conway.Loop_inv s) :
    Conway.Loop_inv (Conway._tcc0 s) := by
  obtain ⟨hq, hp, hg, hd⟩ := h
  have hfill : s.event.fill ≤ (FSM_AddEvent s.event Conway.signal_Timer).fill := by
    unfold FSM_AddEvent
    split
    · exact Nat.le_refl _
    · exact Nat.le_succ _
  refine ⟨QueueOk_add _ _ hq, ?_, ?_, hd⟩
  · show ∀ x ∈ pending (FSM_AddEvent s.event Conway.signal_Timer), _
    by_cases hfull : s.event.fill = BUFFER_SIZE
    · rw [pending_add_full _ _ hfull]
      exact hp
    · have hlt : s.event.fill < BUFFER_SIZE := lt_of_le_of_ne hq.1 hfull
      rw [pending_add _ _ hq hlt]
      intro x hx
      rw [List.mem_append, List.mem_singleton] at hx
      rcases hx with hx | hx
      · exact hp x hx
      · exact Or.inl hx
  · intro hpc
    have := hg hpc
    show 0 < (FSM_AddEvent s.event Conway.signal_Timer).fill
    omega

theorem Loop_inv_Loop (s : Conway.Sys) (h : Conway.Loop_inv s) :
    Conway.Loop_inv (Conway.Loop s).1 := by
  obtain ⟨hq, hp, hg, hd⟩ := h
  unfold Conway.Loop
  cases hpc : s.pc with
  | init =>
    refine ⟨QueueOk_flush _, ?_, ?_, ?_⟩
    · show ∀ x ∈ pending (FSM_FlushEvents s.event), _
      rw [pending_flush]
      simp
    · intro hc
      cases hc
    · intro hc
      cases hc
  | poll =>
    by_cases hav : FSM_EventsAvailable s.event = true
    · simp only [hav, if_true]
      refine ⟨hq, hp, ?_, ?_⟩
      · intro _
        simpa [FSM_EventsAvailable] using hav
      · intro hc
        cases hc
    · simp only [hav]
      refine ⟨hq, hp, ?_, ?_⟩
      · intro hc
        simp only [Bool.false_eq_true, if_false] at hc
        rw [hpc] at hc
        cases hc
      · intro hc
        simp only [Bool.false_eq_true, if_false] at hc
        rw [hpc] at hc
        cases hc
  | get =>
    have hpos := hg hpc
    have hpg := pending_get s.event hpos
    refine ⟨QueueOk_get _ hq, ?_, ?_, ?_⟩
    · intro x hx
      apply hp
      rw [hpg]
      exact List.mem_cons_of_mem _ hx
    · intro hc
      cases hc
    · intro _
      apply hp
      rw [hpg]
      exact List.mem_cons_self _ _
  | dispatch =>
    refine ⟨hq, hp, ?_, ?_⟩
    · intro hc
      cases hc
    · intro hc
      cases hc

theorem Loop_inv_step (s : Conway.Sys) (a : Conway.Action) (h : Conway.Loop_inv s) :
    Conway.Loop_inv (Conway.step s a).1 := by
  cases a with
  | adc => exact Loop_inv_adc s h
  | tcc0 => exact Loop_inv_tcc0 s h
  | main => exact Loop_inv_Loop s h
  | sample r => exact h

theorem Loop_inv_run (acts : List Conway.Action) :
    ∀ s : Conway.Sys, Conway.Loop_inv s → Conway.Loop_inv (Conway.run s acts).1 := by
  induction acts with
  | nil => intro s h; exact h
  | cons a rest ih =>
    intro s h
    exact ih (Conway.step s a).1 (Loop_inv_step s a h)

/-- C3. The caller always tests for events first.  In every state the program
reaches from the entry of `Loop` by interrupts and main-loop steps, if `Loop`
is about to call `FSM_GetLatestEvent` then the queue is non-empty
(`fill > 0`, `FSM_EventsAvailable` is true), so the call takes the slot at the
read cursor and not the underflow case.  A step reaches that program point
only from the polling loop when `FSM_EventsAvailable` returned true, or keeps
it while an interrupt runs (no dequeue in between); and neither interrupt
handler leaves the queue empty. -/
theorem C3_dequeue_only_when_available (w : Conway.World) (acts : List Conway.Action)
    (hpc : (Conway.run (Conway.Loop_entry w) acts).1.pc = Conway.Loop_pc.get) :
    0 < (Conway.run (Conway.Loop_entry w) acts).1.event.fill ∧
      FSM_EventsAvailable (Conway.run (Conway.Loop_entry w) acts).1.event = true ∧
      (FSM_GetLatestEvent (Conway.run (Conway.Loop_entry w) acts).1.event).1
        = (Conway.run (Conway.Loop_entry w) acts).1.event.event
            (slot (Conway.run (Conway.Loop_entry w) acts).1.event.read_index) ∧
      (∀ (s : Conway.Sys) (a : Conway.Action),
        (Conway.step s a).1.pc = Conway.Loop_pc.get →
          (s.pc = Conway.Loop_pc.get ∧ a ≠ Conway.Action.main) ∨
          (s.pc = Conway.Loop_pc.poll ∧ a = Conway.Action.main ∧
            FSM_EventsAvailable s.event = true)) ∧
      (∀ s : Conway.Sys, 0 < (Conway._adc s).event.fill) ∧
      (∀ s : Conway.Sys, 0 < (Conway._tcc0 s).event.fill) := by
  have hinv := Loop_inv_run acts (Conway.Loop_entry w) (Loop_inv_entry w)
  have hpos := hinv.2.2.1 hpc
  refine ⟨hpos, ?_, ?_, ?_, ?_, ?_⟩
  · simp [FSM_EventsAvailable, hpos]
  · rw [get_of_pos _ hpos]
  · intro s a h
    cases a with
    | adc => exact Or.inl ⟨h, by simp⟩
    | tcc0 => exact Or.inl ⟨h, by simp⟩
    | sample r => exact Or.inl ⟨h, by simp⟩
    | main =>
      right
      simp only [Conway.step, Conway.Loop] at h
      cases hs : s.pc with
      | init => simp [hs] at h
      | poll =>
        by_cases hav : FSM_EventsAvailable s.event = true
        · exact ⟨rfl, rfl, hav⟩
        · simp [hs, hav] at h
      | get => simp [hs] at h
      | dispatch => simp [hs] at h
  · intro s
    show 0 < (FSM_AddEvent (FSM_FlushEvents s.event) Conway.signal_ADCWindow).fill
    simp [FSM_AddEvent, FSM_FlushEvents, BUFFER_SIZE]
  · intro s
    show 0 < (FSM_AddEvent s.event Conway.signal_Timer).fill
    unfold FSM_AddEvent
    split
    · rename_i hfull
      rw [hfull]
      decide
    · exact Nat.succ_pos _

/-- Witness of C3: `FSM_Init`, a timer interrupt, then the poll that finds the
event. -/
theorem C3_dequeue_only_when_available_witness :
    (Conway.run (Conway.Loop_entry { GPIO_OUT := 0, NVIC_ICPR0 := 0, adc := 0, calls := [] })
        [Conway.Action.main, Conway.Action.tcc0, Conway.Action.main]).1.pc
        = Conway.Loop_pc.get ∧
      0 < (Conway.run
        (Conway.Loop_entry { GPIO_OUT := 0, NVIC_ICPR0 := 0, adc := 0, calls := [] })
        [Conway.Action.main, Conway.Action.tcc0, Conway.Action.main]).1.event.fill :=
  ⟨by decide,
    (C3_dequeue_only_when_available
      { GPIO_OUT := 0, NVIC_ICPR0 := 0, adc := 0, calls := [] }
      [Conway.Action.main, Conway.Action.tcc0, Conway.Action.main] (by decide)).1⟩

/-- C4. Reserved signals are never put on the queue.  `_adc` passes
`signal_ADCWindow` and `_tcc0` passes `signal_Timer` to `FSM_AddEvent`; in
every state the program reaches from the entry of `Loop` (empty queue) by
interrupts and main-loop steps, every pending signal is one of these two and
so at least `signal_Count`; and whenever `Loop` is about to call
`FSM_Dispatch`, `sig` is one of these two, hence none of `signal_None`,
`signal_Enter`, `signal_Exit`. -/
theorem C4_no_reserved_signal_queued (w : Conway.World) (acts : List Conway.Action) :
    (∀ s : Conway.Sys, (Conway._adc s).event
        = FSM_AddEvent (FSM_FlushEvents s.event) Conway.signal_ADCWindow) ∧
      (∀ s : Conway.Sys, (Conway._tcc0 s).event
        = FSM_AddEvent s.event Conway.signal_Timer) ∧
      (∀ x ∈ pending (Conway.run (Conway.Loop_entry w) acts).1.event,
        (x = Conway.signal_Timer ∨ x = Conway.signal_ADCWindow) ∧ signal_Count ≤ x) ∧
      ((Conway.run (Conway.Loop_entry w) acts).1.pc = Conway.Loop_pc.dispatch →
        ((Conway.run (Conway.Loop_entry w) acts).1.sig = Conway.signal_Timer ∨
          (Conway.run (Conway.Loop_entry w) acts).1.sig = Conway.signal_ADCWindow) ∧
        (Conway.run (Conway.Loop_entry w) acts).1.sig ≠ signal_None ∧
        (Conway.run (Conway.Loop_entry w) acts).1.sig ≠ signal_Enter ∧
        (Conway.run (Conway.Loop_entry w) acts).1.sig ≠ signal_Exit) := by
  have hinv := Loop_inv_run acts (Conway.Loop_entry w) (Loop_inv_entry w)
  have key : ∀ x : signal, x = Conway.signal_Timer ∨ x = Conway.signal_ADCWindow →
      signal_Count ≤ x ∧ x ≠ signal_None ∧ x ≠ signal_Enter ∧ x ≠ signal_Exit := by
    intro x hx
    rcases hx with hx | hx <;> subst hx <;> decide
  refine ⟨fun _ => rfl, fun _ => rfl, ?_, ?_⟩
  · intro x hx
    exact ⟨hinv.2.1 x hx, (key x (hinv.2.1 x hx)).1⟩
  · intro hpc
    have hs := hinv.2.2.2 hpc
    exact ⟨hs, (key _ hs).2⟩

/-- Witness of C4: after `FSM_Init`, a timer interrupt, the poll and the
dequeue, `Loop` is about to dispatch `signal_Timer`. -/
theorem C4_no_reserved_signal_queued_witness :
    (Conway.run (Conway.Loop_entry { GPIO_OUT := 0, NVIC_ICPR0 := 0, adc := 0, calls := [] })
        [Conway.Action.main, Conway.Action.tcc0, Conway.Action.main,
          Conway.Action.main]).1.pc = Conway.Loop_pc.dispatch ∧
      (Conway.run (Conway.Loop_entry { GPIO_OUT := 0, NVIC_ICPR0 := 0, adc := 0, calls := [] })
        [Conway.Action.main, Conway.Action.tcc0, Conway.Action.main,
          Conway.Action.main]).1.sig ≠ signal_Enter :=
  ⟨by decide,
    ((C4_no_reserved_signal_queued
      { GPIO_OUT := 0, NVIC_ICPR0 := 0, adc := 0, calls := [] }
      [Conway.Action.main, Conway.Action.tcc0, Conway.Action.main,
        Conway.Action.main]).2.2.2 (by decide)).2.2.1⟩

/-- C5. End-to-end scenario with `Life` as the handler.  For every signal,
`Life` never returns `fsm_Transition` and leaves `this->state` as it was; it
returns `fsm_Handled` exactly for `signal_Timer`, `signal_ADCWindow` and
`signal_Enter`, and `fsm_Ignored` exactly for every other signal.  With
`[Timer, Timer, ADCWindow]` queued, three rounds of poll, dequeue and dispatch
deliver exactly these three signals to `Life`, in that order, each returning
`fsm_Handled`; afterwards `Life` is still the active handler, the queue is
empty and `Loop` is polling again. -/
theorem C5_life_end_to_end :
    (∀ (this : fsm_t) (s : signal) (w : Conway.World),
      (Conway.Life this s w).1 ≠ fsm_status_t.fsm_Transition ∧
      (Conway.Life this s w).2.1 = this ∧
      ((Conway.Life this s w).1 = fsm_status_t.fsm_Handled ↔
        (s = Conway.signal_Timer ∨ s = Conway.signal_ADCWindow ∨ s = signal_Enter)) ∧
      ((Conway.Life this s w).1 = fsm_status_t.fsm_Ignored ↔
        ¬ (s = Conway.signal_Timer ∨ s = Conway.signal_ADCWindow ∨ s = signal_Enter))) ∧
    (∀ (q : fsm_events_t) (w : Conway.World),
      (Conway.run
          { event := addEvents (FSM_FlushEvents q)
              [Conway.signal_Timer, Conway.signal_Timer, Conway.signal_ADCWindow]
            life := { state := state_func.Life }
            sig := signal_None
            pc := Conway.Loop_pc.poll
            hw := w }
          (List.replicate 9 Conway.Action.main)).2
        = [⟨state_func.Life, Conway.signal_Timer, fsm_status_t.fsm_Handled⟩,
           ⟨state_func.Life, Conway.signal_Timer, fsm_status_t.fsm_Handled⟩,
           ⟨state_func.Life, Conway.signal_ADCWindow, fsm_status_t.fsm_Handled⟩] ∧
      (Conway.run
          { event := addEvents (FSM_FlushEvents q)
              [Conway.signal_Timer, Conway.signal_Timer, Conway.signal_ADCWindow]
            life := { state := state_func.Life }
            sig := signal_None
            pc := Conway.Loop_pc.poll
            hw := w }
          (List.replicate 9 Conway.Action.main)).1.life = { state := state_func.Life } ∧
      FSM_EventsAvailable (Conway.run
          { event := addEvents (FSM_FlushEvents q)
              [Conway.signal_Timer, Conway.signal_Timer, Conway.signal_ADCWindow]
            life := { state := state_func.Life }
            sig := signal_None
            pc := Conway.Loop_pc.poll
            hw := w }
          (List.replicate 9 Conway.Action.main)).1.event = false ∧
      (Conway.run
          { event := addEvents (FSM_FlushEvents q)
              [Conway.signal_Timer, Conway.signal_Timer, Conway.signal_ADCWindow]
            life := { state := state_func.Life }
            sig := signal_None
            pc := Conway.Loop_pc.poll
            hw := w }
          (List.replicate 9 Conway.Action.main)).1.pc = Conway.Loop_pc.poll) := by
  refine ⟨?_, ?_⟩
  · intro this s w
    have h := Life_status this s w
    by_cases hs : s = Conway.signal_Timer ∨ s = Conway.signal_ADCWindow ∨ s = signal_Enter
    · have h1 := h.2.1 hs
      simp [h1, hs, h.1]
    · have h1 := h.2.2 hs
      simp [h1, hs, h.1]
  · intro q w
    simp [Conway.run, Conway.step, Conway.Loop, FSM_Dispatch, FSM_EventsAvailable,
      FSM_GetLatestEvent, addEvents, FSM_AddEvent, FSM_FlushEvents, Conway.call,
      Conway.Life, slot, BUFFER_SIZE, List.replicate, Function.update,
      Conway.signal_Timer, Conway.signal_ADCWindow, signal_Count, signal_Exit,
      signal_Enter, signal_None]

/-! ### The SysTick handler of `rainbow.c` -/

theorem sysTick_inactive (s : Rainbow.State) (h : s.ledIndex < 6) :
    ∃ entry : Rainbow.colour_code_t,
      Rainbow.ledColours[s.ledIndex]? = some entry ∧
      entry.colour ≠ Rainbow.colour_t.colour_None ∧
      Rainbow._sysTick false s =
        some
          { led := { s.led with colour := entry.code }
            ledIndex := (s.ledIndex + 1) % 6
            timer_starts := s.timer_starts + 1 } := by
  obtain ⟨led, i, n⟩ := s
  simp only at h
  interval_cases i <;>
    simp [Rainbow._sysTick, Rainbow.ledColours]

theorem ticks_ledIndex (l : List Bool) :
    ∀ s : Rainbow.State, s.ledIndex < 6 →
      ∃ s1 : Rainbow.State, Rainbow.ticks s l = some s1 ∧
        s1.ledIndex = (s.ledIndex + l.count false) % 6 := by
  induction l with
  | nil =>
    intro s h
    exact ⟨s, rfl, by simp [Nat.mod_eq_of_lt h]⟩
  | cons t rest ih =>
    intro s h
    cases t with
    | true =>
      obtain ⟨s1, h1, h2⟩ := ih s h
      refine ⟨s1, ?_, ?_⟩
      · simpa [Rainbow.ticks, Rainbow._sysTick] using h1
      · simpa using h2
    | false =>
      obtain ⟨entry, _, _, h3⟩ := sysTick_inactive s h
      obtain ⟨s1, h1, h2⟩ :=
        ih { led := { s.led with colour := entry.code }
             ledIndex := (s.ledIndex + 1) % 6
             timer_starts := s.timer_starts + 1 }
          (Nat.mod_lt _ (by decide))
      refine ⟨s1, ?_, ?_⟩
      · simp only [Rainbow.ticks, h3]
        exact h1
      · rw [h2]
        simp only [List.count_cons_self]
        omega

/-- C10. Colour cycling in `_sysTick`.  After any sequence of ticks from the
state `main` sets up, the handler has never read outside `ledColours` and
`ledIndex` is `k % 6`, hence in `0..5`, where `k` counts the ticks so far on
which the timer was inactive.  The next inactive tick reads entry `k % 6` of
the table, which is one of red, orange, yellow, green, blue, violet in this
order and never the `colour_None` entry, stores its code in `led.colour` and
moves `ledIndex` to `(k + 1) % 6`; a tick on which the timer is active changes
nothing. -/
theorem C10_colour_cycle (l : List Bool) :
    ∃ s : Rainbow.State,
      Rainbow.ticks Rainbow.main_state l = some s ∧
      s.ledIndex = l.count false % 6 ∧ s.ledIndex < 6 ∧
      Rainbow._sysTick true s = some s ∧
      ∃ (entry : Rainbow.colour_code_t) (s1 : Rainbow.State),
        Rainbow.ledColours[l.count false % 6]? = some entry ∧
        [Rainbow.colour_t.colour_red, Rainbow.colour_t.colour_orange,
          Rainbow.colour_t.colour_yellow, Rainbow.colour_t.colour_green,
          Rainbow.colour_t.colour_blue,
          Rainbow.colour_t.colour_violet][l.count false % 6]? = some entry.colour ∧
        entry.colour ≠ Rainbow.colour_t.colour_None ∧
        Rainbow._sysTick false s = some s1 ∧
        s1.led.colour = entry.code ∧
        s1.ledIndex = (l.count false + 1) % 6 := by
  have h0 : Rainbow.main_state.ledIndex < 6 := by decide
  obtain ⟨s, h1, h2⟩ := ticks_ledIndex l Rainbow.main_state h0
  have hidx : s.ledIndex = l.count false % 6 := by
    rw [h2]
    show (0 + l.count false) % 6 = _
    rw [Nat.zero_add]
  have hlt : s.ledIndex < 6 := by
    rw [hidx]
    exact Nat.mod_lt _ (by decide)
  obtain ⟨entry, e1, e2, e3⟩ := sysTick_inactive s hlt
  refine ⟨s, h1, hidx, hlt, rfl, entry, _, ?_, ?_, e2, e3, rfl, ?_⟩
  · rw [← hidx]
    exact e1
  · rw [← hidx]
    have hk : s.ledIndex < 6 := hlt
    generalize s.ledIndex = i at e1 hk
    interval_cases i <;> simp [Rainbow.ledColours] at e1 <;> subst e1 <;> rfl
  · show (s.ledIndex + 1) % 6 = _
    rw [hidx]
    omega
